import Mathlib

/-!
Shallow embedding of the marlin postmortem analyzer (`src/index.ts`).

Lines of input are modelled as `List Char`.  JavaScript regular expressions
used by the tool are deterministic (no quantifier in them ever needs
backtracking, because every greedy run is delimited by a character the run's
class excludes), so each regex is embedded as a maximal-run parser built from
`takeRun`.  JavaScript numbers are modelled as `Nat`; `parseInt` on a hex- or
decimal-digit string is exact positional evaluation (IEEE doubles round above
2^53, but every value evaluated concretely in this development is far below
that).  Bitwise `&` on 32-bit-ranged values agrees with `Nat.land`.
-/

namespace Postmortem

/-- ASCII alphanumeric, the character class `[A-Za-z0-9]` of the register regex. -/
def isAlnumAscii (c : Char) : Bool :=
  (65 ≤ c.toNat && c.toNat ≤ 90) || (97 ≤ c.toNat && c.toNat ≤ 122) ||
    (48 ≤ c.toNat && c.toNat ≤ 57)

/-- The JavaScript `\s` character class (whitespace, Unicode spaces included). -/
def isSpaceJS (c : Char) : Bool :=
  (9 ≤ c.toNat && c.toNat ≤ 13) || c.toNat == 32 || c.toNat == 160 ||
    c.toNat == 0x1680 || (0x2000 ≤ c.toNat && c.toNat ≤ 0x200a) ||
    c.toNat == 0x2028 || c.toNat == 0x2029 || c.toNat == 0x202f ||
    c.toNat == 0x205f || c.toNat == 0x3000 || c.toNat == 0xfeff

/-- The character class `[0-9A-Fa-f]` of the hex captures. -/
def isHexDigitAscii (c : Char) : Bool :=
  (48 ≤ c.toNat && c.toNat ≤ 57) || (65 ≤ c.toNat && c.toNat ≤ 70) ||
    (97 ≤ c.toNat && c.toNat ≤ 102)

/-- The character class `\d` (ASCII decimal digit). -/
def isDigitAscii (c : Char) : Bool :=
  48 ≤ c.toNat && c.toNat ≤ 57

/-- Numeric value of one hex digit. -/
def hexDigitVal (c : Char) : Nat :=
  if 48 ≤ c.toNat && c.toNat ≤ 57 then c.toNat - 48
  else if 65 ≤ c.toNat && c.toNat ≤ 70 then c.toNat - 55
  else if 97 ≤ c.toNat && c.toNat ≤ 102 then c.toNat - 87
  else 0

/-- `parseInt(s, 16)` on an all-hex-digit capture. -/
def hexVal (cs : List Char) : Nat :=
  cs.foldl (fun a c => a * 16 + hexDigitVal c) 0

/-- `parseInt(s, 10)` on an all-decimal-digit capture. -/
def decVal (cs : List Char) : Nat :=
  cs.foldl (fun a c => a * 10 + (c.toNat - 48)) 0

/-- Maximal prefix of characters satisfying `p` (a greedy regex run), and the rest. -/
def takeRun (p : Char → Bool) : List Char → List Char × List Char
  | [] => ([], [])
  | c :: cs =>
    if p c then (c :: (takeRun p cs).1, (takeRun p cs).2)
    else ([], c :: cs)

theorem takeRun_nil (p : Char → Bool) : takeRun p [] = ([], []) := rfl

theorem takeRun_cons (p : Char → Bool) (c : Char) (cs : List Char) :
    takeRun p (c :: cs) =
      if p c then ((c :: (takeRun p cs).1, (takeRun p cs).2) : List Char × List Char)
      else ([], c :: cs) := rfl

/-- `takeRun` splits its input. -/
theorem takeRun_append (p : Char → Bool) (cs : List Char) :
    (takeRun p cs).1 ++ (takeRun p cs).2 = cs := by
  induction cs with
  | nil => rfl
  | cons c cs ih =>
    rw [takeRun_cons]
    split <;> simp_all

/-- Every character of the run satisfies `p`. -/
theorem takeRun_all (p : Char → Bool) (cs : List Char) :
    ∀ c ∈ (takeRun p cs).1, p c := by
  induction cs with
  | nil => simp [takeRun_nil]
  | cons c cs ih =>
    rw [takeRun_cons]
    split <;> simp_all

/-- The run is maximal: the remainder does not start with a `p`-character. -/
theorem takeRun_head (p : Char → Bool) (cs : List Char) :
    ∀ c, (takeRun p cs).2.head? = some c → ¬ p c := by
  induction cs with
  | nil => simp [takeRun_nil]
  | cons c cs ih =>
    rw [takeRun_cons]
    split <;> simp_all

/-- Maximal runs are unique: any split into a `p`-prefix followed by a
non-`p`-headed remainder is what `takeRun` returns. -/
theorem takeRun_eq_of_split (p : Char → Bool) (a b : List Char)
    (ha : ∀ c ∈ a, p c) (hb : ∀ c, b.head? = some c → ¬ p c) :
    takeRun p (a ++ b) = (a, b) := by
  induction a with
  | nil =>
    cases b with
    | nil => rfl
    | cons c cs =>
      rw [List.nil_append, takeRun_cons]
      have := hb c rfl
      simp [this]
  | cons c cs ih =>
    rw [List.cons_append, takeRun_cons]
    have hc : p c = true := ha c (by simp)
    simp [hc, ih (fun x hx => ha x (by simp [hx]))]

/-- A parsed register line (`RegisterInfo` in src/index.ts). -/
structure RegisterInfo where
  register : String
  value : Nat
  deriving DecidableEq, Repr

/-- Embedding of `parseRegisterLine` (src/index.ts): the anchored regex
`^([A-Za-z0-9]+)\s*:\s+0x([0-9A-Fa-f]+)$` run on one line, yielding the
captured name and the hex value.  Each greedy run is delimited by a character
its class excludes, so maximal-run parsing is exact. -/
def parseRegisterLine (line : List Char) : Option RegisterInfo :=
  let r1 := takeRun isAlnumAscii line
  if r1.1 = [] then none
  else
    let r2 := takeRun isSpaceJS r1.2
    match r2.2 with
    | ':' :: rest =>
      let r3 := takeRun isSpaceJS rest
      if r3.1 = [] then none
      else
        match r3.2 with
        | '0' :: 'x' :: rest2 =>
          let r4 := takeRun isHexDigitAscii rest2
          if r4.1 = [] then none
          else if r4.2 = [] then some ⟨String.mk r1.1, hexVal r4.1⟩ else none
        | _ => none
    | _ => none

/-- The shape `<alnum name> <ws*> : <ws+> 0x <hex+>` of an accepted register line. -/
def RegLineShape (nm ws1 ws2 hx : List Char) : Prop :=
  nm ≠ [] ∧ (∀ c ∈ nm, isAlnumAscii c) ∧ (∀ c ∈ ws1, isSpaceJS c) ∧
    ws2 ≠ [] ∧ (∀ c ∈ ws2, isSpaceJS c) ∧ hx ≠ [] ∧ (∀ c ∈ hx, isHexDigitAscii c)

theorem not_alnum_of_space {c : Char} (h : isSpaceJS c = true) :
    isAlnumAscii c = false := by
  cases hA : isAlnumAscii c with
  | false => rfl
  | true =>
    exfalso
    simp only [isSpaceJS, isAlnumAscii, Bool.or_eq_true, Bool.and_eq_true,
      decide_eq_true_eq, beq_iff_eq] at h hA
    omega

theorem not_space_of_alnum {c : Char} (h : isAlnumAscii c = true) :
    isSpaceJS c = false := by
  cases hS : isSpaceJS c with
  | false => rfl
  | true =>
    exfalso
    simp only [isSpaceJS, isAlnumAscii, Bool.or_eq_true, Bool.and_eq_true,
      decide_eq_true_eq, beq_iff_eq] at h hS
    omega

/-- Characterization of the register-line regex: a line is accepted exactly when
it decomposes as `<name> <ws*> ':' <ws+> "0x" <hex+>` spanning the whole line,
and then the result carries the verbatim name and the hex value. -/
theorem parseRegisterLine_iff (line : List Char) (r : RegisterInfo) :
    parseRegisterLine line = some r ↔
      ∃ nm ws1 ws2 hx, RegLineShape nm ws1 ws2 hx ∧
        line = nm ++ ws1 ++ ':' :: (ws2 ++ '0' :: 'x' :: hx) ∧
        r = ⟨String.mk nm, hexVal hx⟩ := by
  constructor
  · intro h
    obtain ⟨nm, t1, E1⟩ : ∃ a b, takeRun isAlnumAscii line = (a, b) := ⟨_, _, rfl⟩
    obtain ⟨ws1, t2, E2⟩ : ∃ a b, takeRun isSpaceJS t1 = (a, b) := ⟨_, _, rfl⟩
    unfold parseRegisterLine at h
    simp only [E1, E2] at h
    split at h
    · exact absurd h (by simp)
    · rename_i h1
      split at h
      · rename_i x1 rest
        obtain ⟨ws2, t3, E3⟩ : ∃ a b, takeRun isSpaceJS rest = (a, b) := ⟨_, _, rfl⟩
        simp only [E3] at h
        split at h
        · exact absurd h (by simp)
        · rename_i h3
          split at h
          · rename_i x2 rest2
            obtain ⟨hx, t4, E4⟩ : ∃ a b, takeRun isHexDigitAscii rest2 = (a, b) :=
              ⟨_, _, rfl⟩
            simp only [E4] at h
            split at h
            · exact absurd h (by simp)
            · rename_i h4
              split at h
              · rename_i h5
                have hA := takeRun_append isAlnumAscii line
                have hB := takeRun_append isSpaceJS t1
                have hC := takeRun_append isSpaceJS rest
                have hD := takeRun_append isHexDigitAscii rest2
                rw [E1] at hA
                rw [E2] at hB
                rw [E3] at hC
                rw [E4] at hD
                have hAm := takeRun_all isAlnumAscii line
                have hBm := takeRun_all isSpaceJS t1
                have hCm := takeRun_all isSpaceJS rest
                have hDm := takeRun_all isHexDigitAscii rest2
                simp only [E1] at hAm
                simp only [E2] at hBm
                simp only [E3] at hCm
                simp only [E4] at hDm
                refine ⟨nm, ws1, ws2, hx,
                  ⟨h1, hAm, hBm, h3, hCm, h4, hDm⟩, ?_, by simpa using h.symm⟩
                rw [← hA, ← hB, ← hC, ← hD, h5]
                simp
              · exact absurd h (by simp)
          · exact absurd h (by simp)
      · exact absurd h (by simp)
  · rintro ⟨nm, ws1, ws2, hx, ⟨hnm, hnmA, hws1, hws2ne, hws2, hhx, hhxA⟩, hline, hr⟩
    subst hline hr
    have e1 : takeRun isAlnumAscii (nm ++ ws1 ++ ':' :: (ws2 ++ '0' :: 'x' :: hx)) =
        (nm, ws1 ++ ':' :: (ws2 ++ '0' :: 'x' :: hx)) := by
      rw [List.append_assoc]
      apply takeRun_eq_of_split _ _ _ hnmA
      intro c hc
      cases ws1 with
      | nil =>
        simp at hc
        subst hc
        decide
      | cons w ws =>
        simp at hc
        subst hc
        simp [not_alnum_of_space (hws1 w (by simp))]
    have e2 : takeRun isSpaceJS (ws1 ++ ':' :: (ws2 ++ '0' :: 'x' :: hx)) =
        (ws1, ':' :: (ws2 ++ '0' :: 'x' :: hx)) := by
      apply takeRun_eq_of_split _ _ _ hws1
      intro c hc
      simp at hc
      subst hc
      decide
    have e3 : takeRun isSpaceJS (ws2 ++ '0' :: 'x' :: hx) =
        (ws2, '0' :: 'x' :: hx) := by
      apply takeRun_eq_of_split _ _ _ hws2
      intro c hc
      simp at hc
      subst hc
      decide
    have e4 : takeRun isHexDigitAscii (hx ++ []) = (hx, []) := by
      apply takeRun_eq_of_split _ _ _ hhxA
      intro c hc
      simp at hc
    rw [List.append_nil] at e4
    simp only [parseRegisterLine, e1, e2, e3, e4]
    simp [hnm, hws2ne, hhx]

/-- Embedding of the line normalization in `main`:
`line.replace(/^recv: /i, '')` removes one case-insensitive leading `"recv: "`.
`Char.toLower` lower-cases exactly ASCII letters, matching the canonicalization
the `i` flag applies to this all-ASCII pattern. -/
def stripRecv (line : List Char) : List Char :=
  if (line.take 6).map Char.toLower = ['r', 'e', 'c', 'v', ':', ' '] then line.drop 6
  else line

/-- Embedding of `numToHex`: `'0x' + num.toString(16).padStart(8, '0')`. -/
def numToHex (n : Nat) : String :=
  "0x" ++ String.mk (List.replicate (8 - (Nat.toDigits 16 n).length) '0' ++
    Nat.toDigits 16 n)

/-- `num.toString(16)` (no padding), used in the diagnostic messages. -/
def hexPlain (n : Nat) : String :=
  String.mk (Nat.toDigits 16 n)

/-- The character class `[^@]` of the backtrace regex's name capture. -/
def isNotAt (c : Char) : Bool :=
  !(c == '@')

/-- A parsed backtrace line (`BacktraceInfo` in src/index.ts). -/
structure BacktraceInfo where
  position : Nat
  name : String
  fnAddress : Nat
  fnOffset : Nat
  pc : Nat
  deriving DecidableEq, Repr

/-- One attempt of the backtrace regex
`#(\d+) : ([^@]+)@0x([0-9A-Fa-f]+)\+(\d+) PC:0x([0-9A-Fa-f]+)` at the start of
`cs`.  Every greedy run is delimited by a character its class excludes, so
maximal-run parsing is exact; the pattern is unanchored, so trailing input may
remain. -/
def tryMatchBt (cs : List Char) : Option BacktraceInfo :=
  match cs with
  | '#' :: r0 =>
    let d := takeRun isDigitAscii r0
    if d.1 = [] then none
    else
      match d.2 with
      | ' ' :: ':' :: ' ' :: r1 =>
        let n := takeRun isNotAt r1
        if n.1 = [] then none
        else
          match n.2 with
          | '@' :: '0' :: 'x' :: r2 =>
            let a := takeRun isHexDigitAscii r2
            if a.1 = [] then none
            else
              match a.2 with
              | '+' :: r3 =>
                let o := takeRun isDigitAscii r3
                if o.1 = [] then none
                else
                  match o.2 with
                  | ' ' :: 'P' :: 'C' :: ':' :: '0' :: 'x' :: r4 =>
                    let p := takeRun isHexDigitAscii r4
                    if p.1 = [] then none
                    else some ⟨decVal d.1, String.mk n.1, hexVal a.1,
                      decVal o.1, hexVal p.1⟩
                  | _ => none
              | _ => none
          | _ => none
      | _ => none
  | _ => none

/-- The unanchored regex search of `parseBacktraceLine`: try the pattern at
every start position, leftmost match wins. -/
def btScan : List Char → Option BacktraceInfo
  | [] => none
  | c :: cs =>
    match tryMatchBt (c :: cs) with
    | some r => some r
    | none => btScan cs

/-- The shape of a substring accepted by one attempt of the backtrace regex. -/
def BtShape (d n a o p : List Char) : Prop :=
  d ≠ [] ∧ (∀ c ∈ d, isDigitAscii c) ∧ n ≠ [] ∧ (∀ c ∈ n, isNotAt c) ∧
    a ≠ [] ∧ (∀ c ∈ a, isHexDigitAscii c) ∧ o ≠ [] ∧ (∀ c ∈ o, isDigitAscii c) ∧
    p ≠ [] ∧ (∀ c ∈ p, isHexDigitAscii c)

/-- The literal text `#<d> : <n>@0x<a>+<o> PC:0x<p>`. -/
def btChunk (d n a o p : List Char) : List Char :=
  '#' :: (d ++ (' ' :: ':' :: ' ' :: (n ++ ('@' :: '0' :: 'x' :: (a ++
    ('+' :: (o ++ (' ' :: 'P' :: 'C' :: ':' :: '0' :: 'x' :: p))))))))

theorem takeRun_ne_nil (p : Char → Bool) (a b : List Char) (ha : a ≠ [])
    (haP : ∀ c ∈ a, p c) : (takeRun p (a ++ b)).1 ≠ [] := by
  cases a with
  | nil => exact absurd rfl ha
  | cons c cs =>
    rw [List.cons_append, takeRun_cons]
    simp [haP c (by simp)]

/-- A successful attempt decomposes the input as a backtrace chunk plus a tail. -/
theorem tryMatchBt_decomp {cs : List Char} {r : BacktraceInfo}
    (h : tryMatchBt cs = some r) :
    ∃ d n a o p t, BtShape d n a o p ∧ cs = btChunk d n a o p ++ t := by
  unfold tryMatchBt at h
  split at h
  · rename_i r0
    obtain ⟨d1, t1, E1⟩ : ∃ a b, takeRun isDigitAscii r0 = (a, b) := ⟨_, _, rfl⟩
    simp only [E1] at h
    split at h
    · exact absurd h (by simp)
    · rename_i h1
      split at h
      · rename_i x1 r1
        obtain ⟨n1, t2, E2⟩ : ∃ a b, takeRun isNotAt r1 = (a, b) := ⟨_, _, rfl⟩
        simp only [E2] at h
        split at h
        · exact absurd h (by simp)
        · rename_i h2
          split at h
          · rename_i x2 r2
            obtain ⟨a1, t3, E3⟩ : ∃ a b, takeRun isHexDigitAscii r2 = (a, b) :=
              ⟨_, _, rfl⟩
            simp only [E3] at h
            split at h
            · exact absurd h (by simp)
            · rename_i h3
              split at h
              · rename_i x3 r3
                obtain ⟨o1, t4, E4⟩ : ∃ a b, takeRun isDigitAscii r3 = (a, b) :=
                  ⟨_, _, rfl⟩
                simp only [E4] at h
                split at h
                · exact absurd h (by simp)
                · rename_i h4
                  split at h
                  · rename_i x4 r4
                    obtain ⟨p1, t5, E5⟩ :
                        ∃ a b, takeRun isHexDigitAscii r4 = (a, b) := ⟨_, _, rfl⟩
                    simp only [E5] at h
                    split at h
                    · exact absurd h (by simp)
                    · rename_i h5
                      have hA := takeRun_append isDigitAscii r0
                      have hB := takeRun_append isNotAt r1
                      have hC := takeRun_append isHexDigitAscii r2
                      have hD := takeRun_append isDigitAscii r3
                      have hE := takeRun_append isHexDigitAscii r4
                      rw [E1] at hA
                      rw [E2] at hB
                      rw [E3] at hC
                      rw [E4] at hD
                      rw [E5] at hE
                      have hAm := takeRun_all isDigitAscii r0
                      have hBm := takeRun_all isNotAt r1
                      have hCm := takeRun_all isHexDigitAscii r2
                      have hDm := takeRun_all isDigitAscii r3
                      have hEm := takeRun_all isHexDigitAscii r4
                      simp only [E1] at hAm
                      simp only [E2] at hBm
                      simp only [E3] at hCm
                      simp only [E4] at hDm
                      simp only [E5] at hEm
                      refine ⟨d1, n1, a1, o1, p1, t5,
                        ⟨h1, hAm, h2, hBm, h3, hCm, h4, hDm, h5, hEm⟩, ?_⟩
                      rw [btChunk, List.cons_append]
                      rw [← hA, ← hB, ← hC, ← hD, ← hE]
                      simp
                  · exact absurd h (by simp)
              · exact absurd h (by simp)
          · exact absurd h (by simp)
      · exact absurd h (by simp)
  · exact absurd h (by simp)

/-- A backtrace chunk followed by anything is accepted by one regex attempt. -/
theorem tryMatchBt_chunk_isSome (d n a o p t : List Char)
    (hs : BtShape d n a o p) : (tryMatchBt (btChunk d n a o p ++ t)).isSome := by
  obtain ⟨hd, hdA, hn, hnA, ha, haA, ho, hoA, hp, hpA⟩ := hs
  have E1 : takeRun isDigitAscii (d ++ (' ' :: ':' :: ' ' :: (n ++ ('@' :: '0' ::
      'x' :: (a ++ ('+' :: (o ++ (' ' :: 'P' :: 'C' :: ':' :: '0' :: 'x' ::
      (p ++ t))))))))) = (d, ' ' :: ':' :: ' ' :: (n ++ ('@' :: '0' :: 'x' ::
      (a ++ ('+' :: (o ++ (' ' :: 'P' :: 'C' :: ':' :: '0' :: 'x' ::
      (p ++ t)))))))) := by
    apply takeRun_eq_of_split _ _ _ hdA
    intro c hc
    simp at hc
    subst hc
    decide
  have E2 : takeRun isNotAt (n ++ ('@' :: '0' :: 'x' :: (a ++ ('+' :: (o ++
      (' ' :: 'P' :: 'C' :: ':' :: '0' :: 'x' :: (p ++ t))))))) =
      (n, '@' :: '0' :: 'x' :: (a ++ ('+' :: (o ++ (' ' :: 'P' :: 'C' :: ':' ::
      '0' :: 'x' :: (p ++ t)))))) := by
    apply takeRun_eq_of_split _ _ _ hnA
    intro c hc
    simp at hc
    subst hc
    decide
  have E3 : takeRun isHexDigitAscii (a ++ ('+' :: (o ++ (' ' :: 'P' :: 'C' ::
      ':' :: '0' :: 'x' :: (p ++ t))))) =
      (a, '+' :: (o ++ (' ' :: 'P' :: 'C' :: ':' :: '0' :: 'x' :: (p ++ t)))) := by
    apply takeRun_eq_of_split _ _ _ haA
    intro c hc
    simp at hc
    subst hc
    decide
  have E4 : takeRun isDigitAscii (o ++ (' ' :: 'P' :: 'C' :: ':' :: '0' :: 'x' ::
      (p ++ t))) = (o, ' ' :: 'P' :: 'C' :: ':' :: '0' :: 'x' :: (p ++ t)) := by
    apply takeRun_eq_of_split _ _ _ hoA
    intro c hc
    simp at hc
    subst hc
    decide
  have E5 := takeRun_ne_nil isHexDigitAscii p t hp hpA
  rw [btChunk, List.cons_append]
  unfold tryMatchBt
  simp only [List.append_assoc, List.cons_append, List.nil_append] at E1 E2 E3 E4 ⊢
  simp only [E1, E2, E3, E4]
  simp [hd, hn, ha, ho, E5]

theorem btScan_cons_isSome (c : Char) (cs : List Char)
    (h : (btScan cs).isSome) : (btScan (c :: cs)).isSome := by
  unfold btScan
  cases htry : tryMatchBt (c :: cs) <;> simp [htry, h]

/-- A successful scan survives prepending arbitrary text. -/
theorem btScan_isSome_append_left (pre t : List Char)
    (h : (btScan t).isSome) : (btScan (pre ++ t)).isSome := by
  induction pre with
  | nil => simpa
  | cons c cs ih => exact btScan_cons_isSome c (cs ++ t) ih

/-- A successful scan survives appending arbitrary text. -/
theorem btScan_isSome_append_right (t post : List Char)
    (h : (btScan t).isSome) : (btScan (t ++ post)).isSome := by
  induction t with
  | nil => simp [btScan] at h
  | cons c cs ih =>
    rw [List.cons_append]
    unfold btScan
    cases h2 : tryMatchBt (c :: (cs ++ post)) with
    | some r => simp [h2]
    | none =>
      simp only [h2]
      unfold btScan at h
      cases h3 : tryMatchBt (c :: cs) with
      | some r =>
        exfalso
        obtain ⟨d1, n1, a1, o1, p1, t1, hs, hsplit⟩ := tryMatchBt_decomp h3
        have := tryMatchBt_chunk_isSome d1 n1 a1 o1 p1 (t1 ++ post) hs
        rw [← List.append_assoc, ← hsplit] at this
        rw [List.cons_append, h2] at this
        simp at this
      | none =>
        simp only [h3] at h
        exact ih h

/-- The CFSR mask constants imported from `./cfsr`, kept abstract: every
decoder theorem below is proved for arbitrary mask values. -/
structure CfsrMasks where
  MEMFAULTSR_MASK : Nat
  MMARVALID_MASK : Nat
  MLSPERR_MASK : Nat
  MSTKERR_MASK : Nat
  MUNSTKERR_MASK : Nat
  DACCVIOL_MASK : Nat
  IACCVIOL_MASK : Nat
  BUSFAULTSR_MASK : Nat
  BFARVALID_MASK : Nat
  LSPERR_MASK : Nat
  STKERR_MASK : Nat
  UNSTKERR_MASK : Nat
  IMPRECISERR_MASK : Nat
  PRECISERR_MASK : Nat
  IBUSERR_MASK : Nat
  USAGEFAULTSR_MASK : Nat
  DIVBYZERO_MASK : Nat
  UNALIGNED_MASK : Nat
  NOCP_MASK : Nat
  INVPC_MASK : Nat
  INVSTATE_MASK : Nat
  UNDEFINSTR_MASK : Nat
  deriving Repr

/-- Modelled from the spec: the module `./cfsr` holding the mask constants is
not part of src/, only its import and field uses are.  The spec's glossary
describes the CFSR as "subdivided into Memory-Management, Bus-Fault, and
Usage-Fault sub-registers" per the ARM Cortex-M CFSR layout, whose standard
bit assignment these values follow (memory-management faults in the low byte,
bus faults in the second byte, usage faults in the upper halfword). -/
def CFRS : CfsrMasks where
  MEMFAULTSR_MASK := 0xFF
  MMARVALID_MASK := 0x80
  MLSPERR_MASK := 0x20
  MSTKERR_MASK := 0x10
  MUNSTKERR_MASK := 0x8
  DACCVIOL_MASK := 0x2
  IACCVIOL_MASK := 0x1
  BUSFAULTSR_MASK := 0xFF00
  BFARVALID_MASK := 0x8000
  LSPERR_MASK := 0x2000
  STKERR_MASK := 0x1000
  UNSTKERR_MASK := 0x800
  IMPRECISERR_MASK := 0x400
  PRECISERR_MASK := 0x200
  IBUSERR_MASK := 0x100
  USAGEFAULTSR_MASK := 0xFFFF0000
  DIVBYZERO_MASK := 0x2000000
  UNALIGNED_MASK := 0x1000000
  NOCP_MASK := 0x80000
  INVPC_MASK := 0x40000
  INVSTATE_MASK := 0x20000
  UNDEFINSTR_MASK := 0x10000

/-- Embedding of the local `checkFlag` closure of `printRegisters`: push the
row `['', name, ...extraColumnsIfSet]` when `cfsr & flag` is non-zero.
For values below 2^32 the JavaScript 32-bit `&` agrees with `Nat.land`. -/
def checkFlag (cfsr flag : Nat) (name : String) (extra : List String) :
    List (List String) :=
  if cfsr &&& flag ≠ 0 then [["", name] ++ extra] else []

/-- The `MMAR: 0x…` detail column attached to `MMARVALID` when an MMAR
register was parsed (and likewise `BFAR` for `BFARVALID`). -/
def arDetail (label : String) (ar : Option Nat) : List String :=
  match ar with
  | some x => [label ++ ": " ++ numToHex x]
  | none => []

/-- The Memory Management Fault block of `printRegisters`. -/
def memBlock (m : CfsrMasks) (cfsr : Nat) (mmar : Option Nat) :
    List (List String) :=
  if cfsr &&& m.MEMFAULTSR_MASK ≠ 0 then
    ["", "Memory Management Fault"] ::
      (checkFlag cfsr m.MMARVALID_MASK "MMARVALID" (arDetail "MMAR" mmar) ++
        checkFlag cfsr m.MLSPERR_MASK "MLSPERR" [] ++
        checkFlag cfsr m.MSTKERR_MASK "MSTKERR" [] ++
        checkFlag cfsr m.MUNSTKERR_MASK "MUNSTKERR" [] ++
        checkFlag cfsr m.DACCVIOL_MASK "DACCVIOL" [] ++
        checkFlag cfsr m.IACCVIOL_MASK "IACCVIOL" [])
  else []

/-- The Bus Fault block of `printRegisters`. -/
def busBlock (m : CfsrMasks) (cfsr : Nat) (bfar : Option Nat) :
    List (List String) :=
  if cfsr &&& m.BUSFAULTSR_MASK ≠ 0 then
    ["", "Bus Fault"] ::
      (checkFlag cfsr m.BFARVALID_MASK "BFARVALID" (arDetail "BFAR" bfar) ++
        checkFlag cfsr m.LSPERR_MASK "LSPERR" [] ++
        checkFlag cfsr m.STKERR_MASK "STKERR" [] ++
        checkFlag cfsr m.UNSTKERR_MASK "UNSTKERR" [] ++
        checkFlag cfsr m.IMPRECISERR_MASK "IMPRECISERR" [] ++
        checkFlag cfsr m.PRECISERR_MASK "PRECISERR" [] ++
        checkFlag cfsr m.IBUSERR_MASK "IBUSERR" [])
  else []

/-- The Usage Fault block of `printRegisters`. -/
def usageBlock (m : CfsrMasks) (cfsr : Nat) : List (List String) :=
  if cfsr &&& m.USAGEFAULTSR_MASK ≠ 0 then
    ["", "Usage Fault"] ::
      (checkFlag cfsr m.DIVBYZERO_MASK "DIVBYZERO" [] ++
        checkFlag cfsr m.UNALIGNED_MASK "UNALIGNED" [] ++
        checkFlag cfsr m.NOCP_MASK "NOCP" [] ++
        checkFlag cfsr m.INVPC_MASK "INVPC" [] ++
        checkFlag cfsr m.INVSTATE_MASK "INVSTATE" [] ++
        checkFlag cfsr m.UNDEFINSTR_MASK "UNDEFINSTR" [])
  else []

/-- The full CFSR decode: the three category blocks in their fixed order. -/
def cfsrRows (m : CfsrMasks) (cfsr : Nat) (mmar bfar : Option Nat) :
    List (List String) :=
  memBlock m cfsr mmar ++ busBlock m cfsr bfar ++ usageBlock m cfsr

/-- Specification-side enumeration of the Memory Management sub-flags:
`(mask, row emitted when set)`, in the order the code tests them. -/
def memFlagRows (m : CfsrMasks) (mmar : Option Nat) :
    List (Nat × List String) :=
  [(m.MMARVALID_MASK, ["", "MMARVALID"] ++ arDetail "MMAR" mmar),
    (m.MLSPERR_MASK, ["", "MLSPERR"]),
    (m.MSTKERR_MASK, ["", "MSTKERR"]),
    (m.MUNSTKERR_MASK, ["", "MUNSTKERR"]),
    (m.DACCVIOL_MASK, ["", "DACCVIOL"]),
    (m.IACCVIOL_MASK, ["", "IACCVIOL"])]

/-- Specification-side enumeration of the Bus Fault sub-flags. -/
def busFlagRows (m : CfsrMasks) (bfar : Option Nat) :
    List (Nat × List String) :=
  [(m.BFARVALID_MASK, ["", "BFARVALID"] ++ arDetail "BFAR" bfar),
    (m.LSPERR_MASK, ["", "LSPERR"]),
    (m.STKERR_MASK, ["", "STKERR"]),
    (m.UNSTKERR_MASK, ["", "UNSTKERR"]),
    (m.IMPRECISERR_MASK, ["", "IMPRECISERR"]),
    (m.PRECISERR_MASK, ["", "PRECISERR"]),
    (m.IBUSERR_MASK, ["", "IBUSERR"])]

/-- Specification-side enumeration of the Usage Fault sub-flags. -/
def usageFlagRows (m : CfsrMasks) : List (Nat × List String) :=
  [(m.DIVBYZERO_MASK, ["", "DIVBYZERO"]),
    (m.UNALIGNED_MASK, ["", "UNALIGNED"]),
    (m.NOCP_MASK, ["", "NOCP"]),
    (m.INVPC_MASK, ["", "INVPC"]),
    (m.INVSTATE_MASK, ["", "INVSTATE"]),
    (m.UNDEFINSTR_MASK, ["", "UNDEFINSTR"])]

/-- Specification-side findings of a category: exactly the enumerated sub-flags
whose mask bit is set, in enumeration order. -/
def setFlagRows (cfsr : Nat) (flags : List (Nat × List String)) :
    List (List String) :=
  (flags.filter (fun q => cfsr &&& q.1 != 0)).map (fun q => q.2)

theorem setFlagRows_nil (cfsr : Nat) : setFlagRows cfsr [] = [] := rfl

theorem setFlagRows_cons (cfsr mask : Nat) (row : List String)
    (rest : List (Nat × List String)) :
    setFlagRows cfsr ((mask, row) :: rest) =
      (if cfsr &&& mask ≠ 0 then [row] else []) ++ setFlagRows cfsr rest := by
  unfold setFlagRows
  rw [List.filter_cons]
  by_cases h : cfsr &&& mask ≠ 0 <;> simp [h]

theorem memBlock_eq (m : CfsrMasks) (cfsr : Nat) (mmar : Option Nat) :
    memBlock m cfsr mmar =
      if cfsr &&& m.MEMFAULTSR_MASK ≠ 0 then
        ["", "Memory Management Fault"] ::
          setFlagRows cfsr (memFlagRows m mmar)
      else [] := by
  unfold memBlock memFlagRows
  simp only [setFlagRows_cons, setFlagRows_nil, checkFlag, List.append_nil,
    List.append_assoc]

theorem busBlock_eq (m : CfsrMasks) (cfsr : Nat) (bfar : Option Nat) :
    busBlock m cfsr bfar =
      if cfsr &&& m.BUSFAULTSR_MASK ≠ 0 then
        ["", "Bus Fault"] :: setFlagRows cfsr (busFlagRows m bfar)
      else [] := by
  unfold busBlock busFlagRows
  simp only [setFlagRows_cons, setFlagRows_nil, checkFlag, List.append_nil,
    List.append_assoc]

theorem usageBlock_eq (m : CfsrMasks) (cfsr : Nat) :
    usageBlock m cfsr =
      if cfsr &&& m.USAGEFAULTSR_MASK ≠ 0 then
        ["", "Usage Fault"] :: setFlagRows cfsr (usageFlagRows m)
      else [] := by
  unfold usageBlock usageFlagRows
  simp only [setFlagRows_cons, setFlagRows_nil, checkFlag, List.append_nil,
    List.append_assoc]

theorem mem_checkFlag {cfsr flag : Nat} {name : String} {extra : List String}
    {row : List String} (h : row ∈ checkFlag cfsr flag name extra) :
    row = ["", name] ++ extra := by
  unfold checkFlag at h
  split at h <;> simp_all

theorem memBlock_get1 {m : CfsrMasks} {cfsr : Nat} {mmar : Option Nat}
    {row : List String} (h : row ∈ memBlock m cfsr mmar) :
    row.get? 1 = some "Memory Management Fault" ∨ row.get? 1 = some "MMARVALID" ∨
      row.get? 1 = some "MLSPERR" ∨ row.get? 1 = some "MSTKERR" ∨
      row.get? 1 = some "MUNSTKERR" ∨ row.get? 1 = some "DACCVIOL" ∨
      row.get? 1 = some "IACCVIOL" := by
  unfold memBlock at h
  split at h
  · rcases List.mem_cons.mp h with h | h
    · subst h; simp
    · simp only [List.append_assoc, List.mem_append] at h
      rcases h with h | h | h | h | h | h <;> rw [mem_checkFlag h] <;> simp
  · simp at h

theorem busBlock_get1 {m : CfsrMasks} {cfsr : Nat} {bfar : Option Nat}
    {row : List String} (h : row ∈ busBlock m cfsr bfar) :
    row.get? 1 = some "Bus Fault" ∨ row.get? 1 = some "BFARVALID" ∨
      row.get? 1 = some "LSPERR" ∨ row.get? 1 = some "STKERR" ∨
      row.get? 1 = some "UNSTKERR" ∨ row.get? 1 = some "IMPRECISERR" ∨
      row.get? 1 = some "PRECISERR" ∨ row.get? 1 = some "IBUSERR" := by
  unfold busBlock at h
  split at h
  · rcases List.mem_cons.mp h with h | h
    · subst h; simp
    · simp only [List.append_assoc, List.mem_append] at h
      rcases h with h | h | h | h | h | h | h <;> rw [mem_checkFlag h] <;> simp
  · simp at h

theorem usageBlock_get1 {m : CfsrMasks} {cfsr : Nat} {row : List String}
    (h : row ∈ usageBlock m cfsr) :
    row.get? 1 = some "Usage Fault" ∨ row.get? 1 = some "DIVBYZERO" ∨
      row.get? 1 = some "UNALIGNED" ∨ row.get? 1 = some "NOCP" ∨
      row.get? 1 = some "INVPC" ∨ row.get? 1 = some "INVSTATE" ∨
      row.get? 1 = some "UNDEFINSTR" := by
  unfold usageBlock at h
  split at h
  · rcases List.mem_cons.mp h with h | h
    · subst h; simp
    · simp only [List.append_assoc, List.mem_append] at h
      rcases h with h | h | h | h | h | h <;> rw [mem_checkFlag h] <;> simp
  · simp at h

/-- Every row the CFSR decoder emits starts with an empty first cell. -/
theorem cfsrRows_head {m : CfsrMasks} {cfsr : Nat} {mmar bfar : Option Nat}
    {row : List String} (h : row ∈ cfsrRows m cfsr mmar bfar) :
    row.head? = some "" := by
  unfold cfsrRows at h
  simp only [List.append_assoc, List.mem_append] at h
  rcases h with h | h | h
  · unfold memBlock at h
    split at h
    · rcases List.mem_cons.mp h with h | h
      · subst h; rfl
      · simp only [List.append_assoc, List.mem_append] at h
        rcases h with h | h | h | h | h | h <;> rw [mem_checkFlag h] <;> rfl
    · simp at h
  · unfold busBlock at h
    split at h
    · rcases List.mem_cons.mp h with h | h
      · subst h; rfl
      · simp only [List.append_assoc, List.mem_append] at h
        rcases h with h | h | h | h | h | h | h <;> rw [mem_checkFlag h] <;> rfl
    · simp at h
  · unfold usageBlock at h
    split at h
    · rcases List.mem_cons.mp h with h | h
      · subst h; rfl
      · simp only [List.append_assoc, List.mem_append] at h
        rcases h with h | h | h | h | h | h <;> rw [mem_checkFlag h] <;> rfl
    · simp at h

/-- The result of one external `addr2line` lookup (`Addr2LineResult`). -/
structure Addr2LineResult where
  filePath : String
  fileName : String
  line : Nat
  function : String
  deriving DecidableEq, Repr

/-- The Symbolizer: `addr2Line` shells out to an external process, modelled as
an arbitrary function from an address to an optional result. -/
def Symbolizer : Type :=
  Nat → Option Addr2LineResult

/-- `toUpperCase()` as used on the (ASCII) register names: character-wise
ASCII upper-casing. -/
def toUpperJS (s : String) : String :=
  String.mk (s.data.map Char.toUpper)

/-- Embedding of the local `findRegister` closure of `printRegisters`:
`registers.find((r) => r.register.toUpperCase() === reg.toUpperCase())`.
`Array.prototype.find` returns the first match. -/
def findRegister (registers : List RegisterInfo) (reg : String) :
    Option RegisterInfo :=
  registers.find? (fun r => toUpperJS r.register == toUpperJS reg)

/-- The LR/PC handling of `printRegisters`: on a resolved lookup push the row
`[name, hex value, function, file:line]`, on a failed lookup log a diagnostic
via `console.error` and push nothing. -/
def regSymRow (regName : String) (rv : Nat) (a2l : Symbolizer) :
    List (List String) × List String :=
  match a2l rv with
  | none => ([], ["Failed to lookup " ++ regName ++ ": " ++ hexPlain rv])
  | some x => ([[regName, numToHex rv, x.function,
      x.fileName ++ ":" ++ toString x.line]], [])

/-- Embedding of `printRegisters`: the rows handed to `printAsTable` (first
component) and the `console.error` diagnostics, in emission order (second
component). -/
def printRegistersOut (m : CfsrMasks) (a2l : Symbolizer)
    (registers : List RegisterInfo) : List (List String) × List String :=
  let lrPart := match findRegister registers "LR" with
    | none => (([], []) : List (List String) × List String)
    | some r => regSymRow "LR" r.value a2l
  let pcPart := match findRegister registers "PC" with
    | none => (([], []) : List (List String) × List String)
    | some r => regSymRow "PC" r.value a2l
  let cfsrPart := match findRegister registers "CFSR" with
    | none => []
    | some c => cfsrRows m c.value
        ((findRegister registers "MMAR").map (fun r => r.value))
        ((findRegister registers "BFAR").map (fun r => r.value))
  ([["Register", "Value"]] ++ lrPart.1 ++ pcPart.1 ++ cfsrPart,
    lrPart.2 ++ pcPart.2)

/-- Embedding of `parseBacktraceLine`: regex scan, then the Symbolizer call;
a failed lookup logs `Failed to lookup address: …` and yields no frame. -/
def parseBacktraceLine (a2l : Symbolizer) (line : List Char) :
    Option (Addr2LineResult × BacktraceInfo) × List String :=
  match btScan line with
  | none => (none, [])
  | some bt =>
    match a2l bt.pc with
    | none => (none, ["Failed to lookup address: " ++ hexPlain bt.pc])
    | some x => (some (x, bt), [])

/-- The three fixed rows `btLines` starts with in `main`. -/
def btHeader : List (List String) :=
  [[], ["Backtrace"], ["#", "Function", "Address", "PC", "File:Line"]]

/-- The backtrace row pushed for one parsed frame in `main`. -/
def btFrameRow (f : Addr2LineResult × BacktraceInfo) : List String :=
  ["#" ++ toString f.2.position,
    f.1.function ++ (if f.2.name == "unknown" then ""
      else " (" ++ f.2.name ++ ")"),
    "@ " ++ numToHex f.2.fnAddress ++ " + " ++ toString f.2.fnOffset,
    "PC:" ++ numToHex f.2.pc,
    f.1.fileName ++ ":" ++ toString f.1.line]

/-- Embedding of the backtrace loop of `main`: the rows handed to
`printAsTable` and the diagnostics, in line order. -/
def backtraceTable (a2l : Symbolizer) (lines : List (List Char)) :
    List (List String) × List String :=
  (btHeader ++ lines.flatMap (fun l =>
      match (parseBacktraceLine a2l l).1 with
      | some f => [btFrameRow f]
      | none => []),
    lines.flatMap (fun l => (parseBacktraceLine a2l l).2))

/-- **C1.** For every 32-bit CFSR value `v` the decoder emits the Memory
Management / Bus Fault / Usage Fault category header iff `v` has a bit set in
the corresponding top-level mask, the blocks appear in that fixed order, the
finding rows of an emitted category are exactly the sub-flags whose mask bit
is set in `v` in the fixed enumeration order (`setFlagRows` of the enumerated
flag list), and `decode(0)` yields no rows at all.  Proved for arbitrary mask
values. -/
theorem cfsr_decode_spec (m : CfsrMasks) (v : Nat) (mmar bfar : Option Nat)
    (hv : v < 2 ^ 32) :
    (["", "Memory Management Fault"] ∈ cfsrRows m v mmar bfar ↔
      v &&& m.MEMFAULTSR_MASK ≠ 0) ∧
    (["", "Bus Fault"] ∈ cfsrRows m v mmar bfar ↔
      v &&& m.BUSFAULTSR_MASK ≠ 0) ∧
    (["", "Usage Fault"] ∈ cfsrRows m v mmar bfar ↔
      v &&& m.USAGEFAULTSR_MASK ≠ 0) ∧
    cfsrRows m v mmar bfar =
      (if v &&& m.MEMFAULTSR_MASK ≠ 0 then
        ["", "Memory Management Fault"] :: setFlagRows v (memFlagRows m mmar)
      else []) ++
      (if v &&& m.BUSFAULTSR_MASK ≠ 0 then
        ["", "Bus Fault"] :: setFlagRows v (busFlagRows m bfar)
      else []) ++
      (if v &&& m.USAGEFAULTSR_MASK ≠ 0 then
        ["", "Usage Fault"] :: setFlagRows v (usageFlagRows m)
      else []) ∧
    (v = 0 → cfsrRows m v mmar bfar = []) := by
  refine ⟨⟨?_, ?_⟩, ⟨?_, ?_⟩, ⟨?_, ?_⟩, ?_, ?_⟩
  · intro h
    unfold cfsrRows at h
    simp only [List.append_assoc, List.mem_append] at h
    rcases h with h | h | h
    · unfold memBlock at h
      split at h
      · rename_i hb; exact hb
      · simp at h
    · rcases busBlock_get1 h with h' | h' | h' | h' | h' | h' | h' | h' <;>
        exact absurd h' (by decide)
    · rcases usageBlock_get1 h with h' | h' | h' | h' | h' | h' | h' <;>
        exact absurd h' (by decide)
  · intro hb
    unfold cfsrRows memBlock
    rw [if_pos hb]
    simp
  · intro h
    unfold cfsrRows at h
    simp only [List.append_assoc, List.mem_append] at h
    rcases h with h | h | h
    · rcases memBlock_get1 h with h' | h' | h' | h' | h' | h' | h' <;>
        exact absurd h' (by decide)
    · unfold busBlock at h
      split at h
      · rename_i hb; exact hb
      · simp at h
    · rcases usageBlock_get1 h with h' | h' | h' | h' | h' | h' | h' <;>
        exact absurd h' (by decide)
  · intro hb
    unfold cfsrRows busBlock
    rw [if_pos hb]
    simp
  · intro h
    unfold cfsrRows at h
    simp only [List.append_assoc, List.mem_append] at h
    rcases h with h | h | h
    · rcases memBlock_get1 h with h' | h' | h' | h' | h' | h' | h' <;>
        exact absurd h' (by decide)
    · rcases busBlock_get1 h with h' | h' | h' | h' | h' | h' | h' | h' <;>
        exact absurd h' (by decide)
    · unfold usageBlock at h
      split at h
      · rename_i hb; exact hb
      · simp at h
  · intro hb
    unfold cfsrRows usageBlock
    rw [if_pos hb]
    simp
  · unfold cfsrRows
    rw [memBlock_eq, busBlock_eq, usageBlock_eq]
  · intro hv0
    subst hv0
    simp [cfsrRows, memBlock, busBlock, usageBlock, Nat.zero_and]

/-- **C1** (witness): at the concrete CFSR value `0x10000` with the modelled
masks, the Usage Fault header is emitted. -/
theorem cfsr_decode_spec_witness :
    (65536 : Nat) < 2 ^ 32 ∧
      (["", "Usage Fault"] ∈ cfsrRows CFRS 65536 none none ↔
        65536 &&& CFRS.USAGEFAULTSR_MASK ≠ 0) :=
  ⟨by decide, (cfsr_decode_spec CFRS 65536 none none (by decide)).2.2.1⟩

/-- **C2** (counterexample): the claim says an LR row whose value the
Symbolizer cannot resolve is still rendered with blank symbol columns; in the
code the row is dropped entirely.  With the single register `LR = 0x1234` and
a Symbolizer that resolves nothing, the register table consists of the header
row only — no LR row — and the diagnostic goes to the error channel. -/
theorem lr_unresolved_cex :
    printRegistersOut CFRS (fun _ => none) [⟨"LR", 4660⟩] =
      ([["Register", "Value"]], ["Failed to lookup LR: 1234"]) := by
  decide

/-- **C2** (amended): when LR (resp. PC) was parsed but its value does not
resolve, the diagnostic is logged to the error channel and the LR (resp. PC)
row is omitted from the table: no table row starts with that register name. -/
theorem regSymRow_head {nm : String} {rv : Nat} {a2l : Symbolizer}
    {row : List String} (h : row ∈ (regSymRow nm rv a2l).1) :
    row.head? = some nm := by
  unfold regSymRow at h
  split at h <;> simp_all

theorem lr_pc_unresolved_dropped (m : CfsrMasks) (a2l : Symbolizer)
    (regs : List RegisterInfo) :
    (∀ lr, findRegister regs "LR" = some lr → a2l lr.value = none →
      ("Failed to lookup LR: " ++ hexPlain lr.value) ∈
        (printRegistersOut m a2l regs).2 ∧
      ∀ row ∈ (printRegistersOut m a2l regs).1, row.head? ≠ some "LR") ∧
    (∀ pc, findRegister regs "PC" = some pc → a2l pc.value = none →
      ("Failed to lookup PC: " ++ hexPlain pc.value) ∈
        (printRegistersOut m a2l regs).2 ∧
      ∀ row ∈ (printRegistersOut m a2l regs).1, row.head? ≠ some "PC") := by
  constructor
  · intro lr hlr hres
    have hlrEq : regSymRow "LR" lr.value a2l =
        ([], ["Failed to lookup LR: " ++ hexPlain lr.value]) := by
      unfold regSymRow
      rw [hres]
      rfl
    unfold printRegistersOut
    simp only [hlr, hlrEq]
    constructor
    · simp
    · intro row hrow
      simp only [List.append_assoc, List.nil_append, List.mem_append,
        List.mem_singleton] at hrow
      rcases hrow with hrow | hrow | hrow
      · subst hrow; simp
      · cases hpc : findRegister regs "PC" with
        | none => rw [hpc] at hrow; simp at hrow
        | some r =>
          rw [hpc] at hrow
          rw [regSymRow_head hrow]
          simp
      · cases hc : findRegister regs "CFSR" with
        | none => rw [hc] at hrow; simp at hrow
        | some c =>
          rw [hc] at hrow
          rw [cfsrRows_head hrow]
          simp
  · intro pc hpc hres
    have hpcEq : regSymRow "PC" pc.value a2l =
        ([], ["Failed to lookup PC: " ++ hexPlain pc.value]) := by
      unfold regSymRow
      rw [hres]
      rfl
    unfold printRegistersOut
    simp only [hpc, hpcEq]
    constructor
    · simp
    · intro row hrow
      simp only [List.append_assoc, List.nil_append, List.mem_append,
        List.mem_singleton] at hrow
      rcases hrow with hrow | hrow | hrow
      · subst hrow; simp
      · cases hlr : findRegister regs "LR" with
        | none => rw [hlr] at hrow; simp at hrow
        | some r =>
          rw [hlr] at hrow
          rw [regSymRow_head hrow]
          simp
      · cases hc : findRegister regs "CFSR" with
        | none => rw [hc] at hrow; simp at hrow
        | some c =>
          rw [hc] at hrow
          rw [cfsrRows_head hrow]
          simp

/-- **C2** (amended, witness): concrete run with `LR = 0x1` and a Symbolizer
that resolves nothing. -/
theorem lr_pc_unresolved_dropped_witness :
    ("Failed to lookup LR: " ++ hexPlain 1) ∈
      (printRegistersOut CFRS (fun _ => none) [⟨"LR", 1⟩]).2 :=
  (((lr_pc_unresolved_dropped CFRS (fun _ => none) [⟨"LR", 1⟩]).1
    ⟨"LR", 1⟩ (by decide) rfl).1)

/-- **C3** (counterexample): the claim says the last occurrence of a duplicate
register name wins; `Array.prototype.find` returns the first match, so with
two `CFSR` records the lookup yields the first (value 1), not the last
(value 2). -/
theorem findRegister_first_cex :
    findRegister [⟨"cfsr", 1⟩, ⟨"CFSR", 2⟩] "CFSR" = some ⟨"cfsr", 1⟩ := by
  decide

/-- **C3** (amended): the downstream register lookup is case-insensitive and
the FIRST occurrence of a name wins: if nothing before `r` matches and `r`
matches, the lookup returns `r` irrespective of later duplicates. -/
theorem findRegister_first_wins (pre post : List RegisterInfo)
    (r : RegisterInfo) (name : String)
    (hpre : ∀ x ∈ pre, (toUpperJS x.register == toUpperJS name) = false)
    (hr : (toUpperJS r.register == toUpperJS name) = true) :
    findRegister (pre ++ r :: post) name = some r := by
  unfold findRegister
  induction pre with
  | nil => simp [List.find?_cons, hr]
  | cons x xs ih =>
    rw [List.cons_append, List.find?_cons_of_neg _ (by simp [hpre x (by simp)])]
    exact ih (fun y hy => hpre y (by simp [hy]))

/-- **C3** (amended, witness): with a non-matching record first and two
case-varied `CFSR` records, the first matching one (value 1) is returned. -/
theorem findRegister_first_wins_witness :
    findRegister ([⟨"R0", 7⟩] ++ ⟨"CFSR", 1⟩ :: [⟨"cfsr", 2⟩]) "cFsR" =
      some ⟨"CFSR", 1⟩ :=
  findRegister_first_wins [⟨"R0", 7⟩] [⟨"cfsr", 2⟩] ⟨"CFSR", 1⟩ "cFsR"
    (by decide) (by decide)

/-- **C4** (counterexample): `"A:0x1"` has the shape the claim admits (alnum
name, zero whitespace on either side of the colon, hex digits), yet the parser
reports no match: the regex demands at least one whitespace character after
the colon (`\s+`). -/
theorem register_colon_space_cex :
    parseRegisterLine ("A:0x1".toList) = none := by
  decide

/-- **C4** (amended): a line yields a register record exactly when it has the
shape `<alnum name> <ws*> ':' <ws+> "0x" <hex+>` spanning the entire line —
arbitrary whitespace (including none) before the colon but at least one
whitespace character after it — and then the record carries the verbatim name
and the hex value; every other line reports no match. -/
theorem parseRegisterLine_shape (line : List Char) (r : RegisterInfo) :
    parseRegisterLine line = some r ↔
      ∃ nm ws1 ws2 hx, RegLineShape nm ws1 ws2 hx ∧
        line = nm ++ ws1 ++ ':' :: (ws2 ++ '0' :: 'x' :: hx) ∧
        r = ⟨String.mk nm, hexVal hx⟩ :=
  parseRegisterLine_iff line r

theorem hexDigitVal_lt (c : Char) : hexDigitVal c < 16 := by
  unfold hexDigitVal
  split_ifs with h1 h2 h3 <;> simp_all <;> omega

theorem hexVal_lt (cs : List Char) : hexVal cs < 16 ^ cs.length := by
  have h : ∀ (l : List Char) (acc : Nat),
      l.foldl (fun a c => a * 16 + hexDigitVal c) acc < (acc + 1) * 16 ^ l.length := by
    intro l
    induction l with
    | nil => intro acc; simp
    | cons c cs ih =>
      intro acc
      rw [List.foldl_cons, List.length_cons]
      have h1 := ih (acc * 16 + hexDigitVal c)
      have h2 : hexDigitVal c < 16 := hexDigitVal_lt c
      have h3 : (acc * 16 + hexDigitVal c + 1) * 16 ^ cs.length ≤
          ((acc + 1) * 16) * 16 ^ cs.length := by
        have : acc * 16 + hexDigitVal c + 1 ≤ (acc + 1) * 16 := by omega
        exact Nat.mul_le_mul_right _ this
      calc cs.foldl (fun a c => a * 16 + hexDigitVal c)
            (acc * 16 + hexDigitVal c) <
          (acc * 16 + hexDigitVal c + 1) * 16 ^ cs.length := h1
        _ ≤ ((acc + 1) * 16) * 16 ^ cs.length := h3
        _ = (acc + 1) * 16 ^ (cs.length + 1) := by ring
  have := h cs 0
  simpa [hexVal] using this

/-- **C5** (counterexample): the claim says the parsed value is below `2^32`
regardless of how many hex digits the line contains; the code does not
truncate, so the nine-digit line `"A : 0x100000000"` parses to exactly
`2^32`. -/
theorem parse_value_cex :
    ∃ r, parseRegisterLine ("A : 0x100000000".toList) = some r ∧
      2 ^ 32 ≤ r.value :=
  ⟨⟨"A", 4294967296⟩, by decide, by norm_num⟩

/-- **C5** (amended): the parsed value is bounded by the number of hex digits:
for an accepted line whose hex field has at most 8 digits the value is an
unsigned 32-bit integer (`< 2^32`). -/
theorem parse_value_bound (nm ws1 ws2 hx : List Char)
    (hs : RegLineShape nm ws1 ws2 hx) (hlen : hx.length ≤ 8) :
    ∃ r, parseRegisterLine (nm ++ ws1 ++ ':' :: (ws2 ++ '0' :: 'x' :: hx)) =
      some r ∧ r.value < 2 ^ 32 := by
  refine ⟨⟨String.mk nm, hexVal hx⟩,
    (parseRegisterLine_iff _ _).2 ⟨nm, ws1, ws2, hx, hs, rfl, rfl⟩, ?_⟩
  calc hexVal hx < 16 ^ hx.length := hexVal_lt hx
    _ ≤ 16 ^ 8 := Nat.pow_le_pow_right (by norm_num) hlen
    _ ≤ 2 ^ 32 := by norm_num

/-- **C5** (amended, witness): the 8-digit line `"A : 0x12345678"`. -/
theorem parse_value_bound_witness :
    ∃ r, parseRegisterLine ("A".toList ++ [] ++ ':' ::
      (" ".toList ++ '0' :: 'x' :: "12345678".toList)) = some r ∧
      r.value < 2 ^ 32 :=
  parse_value_bound ("A".toList) [] (" ".toList) ("12345678".toList)
    (by unfold RegLineShape; decide) (by decide)

/-- **C9** (counterexample): the claim says a register line with any extra
leading or trailing characters is rejected; prepending the alphanumeric
character `X` to the accepted line `"A : 0x1"` yields `"XA : 0x1"`, which is
still accepted (as register `XA`). -/
theorem register_anchor_cex :
    parseRegisterLine ("A : 0x1".toList) = some ⟨"A", 1⟩ ∧
      parseRegisterLine ("XA : 0x1".toList) = some ⟨"XA", 1⟩ := by
  decide

/-- **C9** (amended): the backtrace pattern is substring-matched — a line that
parses still parses with arbitrary text prepended and appended — while the
register pattern must span the whole line: prepending any non-alphanumeric
character, or appending any non-hex-digit character, to an accepted register
line is rejected.  (Characters that merely extend the name or hex run keep
the line accepted, see the counterexample.) -/
theorem substring_vs_anchored (line : List Char) (r : RegisterInfo)
    (bline : List Char) (bt : BacktraceInfo) (pre post : List Char) (c : Char) :
    (btScan bline = some bt → (btScan (pre ++ bline ++ post)).isSome) ∧
    (parseRegisterLine line = some r → isAlnumAscii c = false →
      parseRegisterLine (c :: line) = none) ∧
    (parseRegisterLine line = some r → isHexDigitAscii c = false →
      parseRegisterLine (line ++ [c]) = none) := by
  refine ⟨?_, ?_, ?_⟩
  · intro h
    have h1 : (btScan (bline ++ post)).isSome :=
      btScan_isSome_append_right bline post (by rw [h]; rfl)
    rw [List.append_assoc]
    exact btScan_isSome_append_left pre _ h1
  · intro h hc
    cases hcontra : parseRegisterLine (c :: line) with
    | none => rfl
    | some r' =>
      exfalso
      obtain ⟨nm, ws1, ws2, hx, ⟨hnm, hnmA, _, _, _, _, _⟩, hline, _⟩ :=
        (parseRegisterLine_iff _ _).1 hcontra
      cases nm with
      | nil => exact hnm rfl
      | cons d nm' =>
        have hd : c = d := by
          have := congrArg List.head? hline
          simpa using this
        have hda : isAlnumAscii d = true := hnmA d (by simp)
        rw [hd, hda] at hc
        simp at hc
  · intro h hc
    cases hcontra : parseRegisterLine (line ++ [c]) with
    | none => rfl
    | some r' =>
      exfalso
      obtain ⟨nm, ws1, ws2, hx, ⟨_, _, _, _, _, hhx, hhxA⟩, hline, _⟩ :=
        (parseRegisterLine_iff _ _).1 hcontra
      rcases hx.eq_nil_or_concat with hnil | ⟨hx', d, rfl⟩
      · exact hhx hnil
      · have h1 : (line ++ [c]).getLast? = some c := by simp
        rw [hline] at h1
        have h2 : nm ++ ws1 ++ ':' :: (ws2 ++ '0' :: 'x' :: hx'.concat d) =
            (nm ++ ws1 ++ ':' :: (ws2 ++ '0' :: 'x' :: hx')) ++ [d] := by
          simp [List.concat_eq_append]
        rw [h2] at h1
        simp only [List.getLast?_concat, Option.some.injEq] at h1
        have hda : isHexDigitAscii d = true := hhxA d (by simp)
        rw [← h1, hda] at hc
        simp at hc

/-- **C9** (amended, witness): concrete instances — the backtrace line parses
with junk around it; a prepended space or an appended `!` rejects the
register line. -/
theorem substring_vs_anchored_witness :
    (btScan ("xx ".toList ++ "#1 : f@0x10+2 PC:0x20".toList ++
      " yy".toList)).isSome ∧
    parseRegisterLine (' ' :: "A : 0x1".toList) = none ∧
    parseRegisterLine ("A : 0x1".toList ++ ['!']) = none :=
  ⟨(substring_vs_anchored ("A : 0x1".toList) ⟨"A", 1⟩
      ("#1 : f@0x10+2 PC:0x20".toList) ⟨1, "f", 16, 2, 32⟩
      ("xx ".toList) (" yy".toList) ' ').1 (by decide),
    (substring_vs_anchored ("A : 0x1".toList) ⟨"A", 1⟩
      ("#1 : f@0x10+2 PC:0x20".toList) ⟨1, "f", 16, 2, 32⟩
      ("xx ".toList) (" yy".toList) ' ').2.1 (by decide) (by decide),
    (substring_vs_anchored ("A : 0x1".toList) ⟨"A", 1⟩
      ("#1 : f@0x10+2 PC:0x20".toList) ⟨1, "f", 16, 2, 32⟩
      ("xx ".toList) (" yy".toList) '!').2.2 (by decide) (by decide)⟩

/-- **C7.** Stripping any casing of the `"recv: "` prefix recovers the
original line unchanged, so the prefixed and unprefixed lines produce the
same result from the register parser and from the backtrace scanner. -/
theorem stripRecv_normalizes (p l : List Char) (hlen : p.length = 6)
    (hlow : p.map Char.toLower = ['r', 'e', 'c', 'v', ':', ' ']) :
    stripRecv (p ++ l) = l ∧
    parseRegisterLine (stripRecv (p ++ l)) = parseRegisterLine l ∧
    btScan (stripRecv (p ++ l)) = btScan l := by
  have h1 : stripRecv (p ++ l) = l := by
    unfold stripRecv
    rw [← hlen, List.take_left, List.drop_left, hlow]
    simp
  exact ⟨h1, by rw [h1], by rw [h1]⟩

/-- **C7** (witness): `"rEcV: CFSR : 0x00010000"` normalizes and parses like
`"CFSR : 0x00010000"`. -/
theorem stripRecv_normalizes_witness :
    stripRecv ("rEcV: ".toList ++ "CFSR : 0x00010000".toList) =
      "CFSR : 0x00010000".toList ∧
    parseRegisterLine (stripRecv ("rEcV: ".toList ++
      "CFSR : 0x00010000".toList)) =
      parseRegisterLine ("CFSR : 0x00010000".toList) ∧
    btScan (stripRecv ("rEcV: ".toList ++ "CFSR : 0x00010000".toList)) =
      btScan ("CFSR : 0x00010000".toList) :=
  stripRecv_normalizes ("rEcV: ".toList) ("CFSR : 0x00010000".toList)
    (by decide) (by decide)

/-- **C6.** A backtrace line whose PC the Symbolizer cannot resolve
contributes a diagnostic to the error channel, no frame row, and processing
continues: the table over `l :: rest` has exactly the rows of the table over
`rest`, and its log is the diagnostic followed by the log of `rest`. -/
theorem unresolved_frame_skipped (a2l : Symbolizer) (l : List Char)
    (rest : List (List Char)) (bt : BacktraceInfo)
    (hscan : btScan l = some bt) (hres : a2l bt.pc = none) :
    parseBacktraceLine a2l l =
      (none, ["Failed to lookup address: " ++ hexPlain bt.pc]) ∧
    (backtraceTable a2l (l :: rest)).1 = (backtraceTable a2l rest).1 ∧
    (backtraceTable a2l (l :: rest)).2 =
      ("Failed to lookup address: " ++ hexPlain bt.pc) ::
        (backtraceTable a2l rest).2 := by
  have h1 : parseBacktraceLine a2l l =
      (none, ["Failed to lookup address: " ++ hexPlain bt.pc]) := by
    unfold parseBacktraceLine
    rw [hscan]
    simp only [hres]
  refine ⟨h1, ?_, ?_⟩
  · unfold backtraceTable
    simp [h1]
  · unfold backtraceTable
    simp [h1]

/-- **C6** (witness): the sample backtrace line with a Symbolizer that
resolves nothing. -/
theorem unresolved_frame_skipped_witness :
    parseBacktraceLine (fun _ => none)
      ("#1 : unknown@0x0001C38C+182 PC:0x0001C442".toList) =
      (none, ["Failed to lookup address: " ++ hexPlain 115778]) :=
  (unresolved_frame_skipped (fun _ => none)
    ("#1 : unknown@0x0001C38C+182 PC:0x0001C442".toList) []
    ⟨1, "unknown", 115596, 182, 115778⟩ (by decide) rfl).1

/-- **C10.** For every input the backtrace table starts with the fixed three
rows — an empty row, the `Backtrace` title row, and the column header row —
and everything after them is a frame row of some input line. -/
theorem backtrace_header_fixed (a2l : Symbolizer) (lines : List (List Char)) :
    (backtraceTable a2l lines).1.take 3 =
      [[], ["Backtrace"], ["#", "Function", "Address", "PC", "File:Line"]] ∧
    ∀ row ∈ (backtraceTable a2l lines).1.drop 3,
      ∃ l ∈ lines, ∃ f, (parseBacktraceLine a2l l).1 = some f ∧
        row = btFrameRow f := by
  constructor
  · rfl
  · intro row hrow
    have hd : (backtraceTable a2l lines).1.drop 3 =
        lines.flatMap (fun l => match (parseBacktraceLine a2l l).1 with
          | some f => [btFrameRow f]
          | none => []) := rfl
    rw [hd] at hrow
    simp only [List.mem_flatMap] at hrow
    obtain ⟨l, hl, hrow⟩ := hrow
    refine ⟨l, hl, ?_⟩
    cases hp : (parseBacktraceLine a2l l).1 with
    | none => rw [hp] at hrow; simp at hrow
    | some f =>
      rw [hp] at hrow
      simp at hrow
      exact ⟨f, rfl, hrow⟩

/-- **C10** (witness): the empty input still produces the three header rows. -/
theorem backtrace_header_fixed_witness :
    (backtraceTable (fun _ => none) []).1.take 3 =
      [[], ["Backtrace"], ["#", "Function", "Address", "PC", "File:Line"]] :=
  (backtrace_header_fixed (fun _ => none) []).1

/-- One step of the column-width loop of `printAsTable`: for each cell of the
row, widen (or create) the width entry at that index when the cell is longer
(`columnWidths[i] == undefined || len > columnWidths[i]`). -/
def updateWidths : List Nat → List String → List Nat
  | ws, [] => ws
  | [], c :: cs => c.length :: updateWidths [] cs
  | w :: ws, c :: cs => max w c.length :: updateWidths ws cs

/-- The `columnWidths` array computed by the first loop of `printAsTable`. -/
def columnWidthsOf (lines : List (List String)) : List Nat :=
  lines.foldl updateWidths []

/-- `String.prototype.padEnd(n, ' ')`: pad with spaces up to length `n`,
return the string unchanged when it is already long enough. -/
def padEnd (s : String) (n : Nat) : String :=
  s ++ String.mk (List.replicate (n - s.length) ' ')

/-- The second loop of `printAsTable`: build one output line by appending each
cell padded to its column width plus two.  The widths list computed from the
rows is always at least as long as any row, so the third branch (JavaScript
would read an undefined width, and `padEnd(NaN)` returns the string
unchanged) is unreachable on the function's own inputs. -/
def renderRow : List Nat → List String → String
  | _, [] => ""
  | w :: ws, c :: cs => padEnd c (w + 2) ++ renderRow ws cs
  | [], c :: cs => c ++ renderRow [] cs

/-- Embedding of `printAsTable`: one rendered line per row, in row order. -/
def printAsTable (lines : List (List String)) : List String :=
  lines.map (renderRow (columnWidthsOf lines))

/-- Length of the cell of `row` at column `i`, 0 when the row is shorter. -/
def cellLen (row : List String) (i : Nat) : Nat :=
  match row[i]? with
  | some c => c.length
  | none => 0

/-- Specification-side column width: the maximum cell length observed at
column `i` across all rows. -/
def colMax (lines : List (List String)) (i : Nat) : Nat :=
  lines.foldr (fun r acc => max (cellLen r i) acc) 0

/-- The number of columns of the table: the maximum row length. -/
def maxRowLen (lines : List (List String)) : Nat :=
  lines.foldr (fun r acc => max r.length acc) 0

/-- Pointwise maximum of two width lists, keeping the longer tail. -/
def wmax : List Nat → List Nat → List Nat
  | [], ys => ys
  | x :: xs, [] => x :: xs
  | x :: xs, y :: ys => max x y :: wmax xs ys

theorem wmax_nil_right (xs : List Nat) : wmax xs [] = xs := by
  cases xs <;> rfl

theorem updateWidths_eq (ws : List Nat) (row : List String) :
    updateWidths ws row = wmax ws (row.map String.length) := by
  induction row generalizing ws with
  | nil => cases ws <;> rfl
  | cons c cs ih =>
    cases ws with
    | nil => simp [updateWidths, wmax, ih]
    | cons w ws' => simp [updateWidths, wmax, ih]

theorem wmax_assoc (a b c : List Nat) : wmax (wmax a b) c = wmax a (wmax b c) := by
  induction a generalizing b c with
  | nil => rfl
  | cons x xs ih =>
    cases b with
    | nil =>
      rw [wmax_nil_right]
      rfl
    | cons y ys =>
      cases c with
      | nil => rw [wmax_nil_right, wmax_nil_right]
      | cons z zs => simp [wmax, Nat.max_assoc, ih]

/-- The accumulated width list of `specWidths`. -/
def specWidths (lines : List (List String)) : List Nat :=
  lines.foldr (fun r acc => wmax (r.map String.length) acc) []

theorem foldl_updateWidths (lines : List (List String)) (ws : List Nat) :
    lines.foldl updateWidths ws = wmax ws (specWidths lines) := by
  induction lines generalizing ws with
  | nil => simp [specWidths, wmax_nil_right]
  | cons r rs ih =>
    rw [List.foldl_cons, specWidths, List.foldr_cons, ih, updateWidths_eq,
      wmax_assoc]
    rfl

theorem columnWidthsOf_eq (lines : List (List String)) :
    columnWidthsOf lines = specWidths lines := by
  rw [columnWidthsOf, foldl_updateWidths]
  rfl

/-- Merge of two optional widths. -/
def owMax : Option Nat → Option Nat → Option Nat
  | none, y => y
  | some x, none => some x
  | some x, some y => some (max x y)

theorem wmax_getElem? (a b : List Nat) (i : Nat) :
    (wmax a b)[i]? = owMax a[i]? b[i]? := by
  induction a generalizing b i with
  | nil =>
    cases hb : b[i]? <;> simp [wmax, owMax, hb]
  | cons x xs ih =>
    cases b with
    | nil =>
      cases i with
      | zero => simp [wmax, owMax]
      | succ n =>
        cases hx : xs[n]? <;> simp [wmax, owMax, hx]
    | cons y ys =>
      cases i with
      | zero => simp [wmax, owMax]
      | succ n => simp [wmax, owMax, ih ys n]

theorem cellLen_eq_zero {row : List String} {i : Nat} (h : row.length ≤ i) :
    cellLen row i = 0 := by
  simp [cellLen, List.getElem?_eq_none h]

theorem colMax_eq_zero {lines : List (List String)} {i : Nat}
    (h : maxRowLen lines ≤ i) : colMax lines i = 0 := by
  induction lines with
  | nil => rfl
  | cons r rs ih =>
    have h1 : max r.length (maxRowLen rs) ≤ i := h
    rw [colMax, List.foldr_cons]
    rw [cellLen_eq_zero (by omega)]
    have : colMax rs i = 0 := ih (by omega)
    rw [colMax] at this
    rw [this]
    simp

theorem specWidths_getElem? (lines : List (List String)) (i : Nat) :
    (specWidths lines)[i]? =
      if i < maxRowLen lines then some (colMax lines i) else none := by
  induction lines with
  | nil => simp [specWidths, maxRowLen]
  | cons r rs ih =>
    rw [specWidths, List.foldr_cons, wmax_getElem?]
    have hmap : (r.map String.length)[i]? = (r[i]?).map String.length :=
      List.getElem?_map _ _ _
    have hcons : maxRowLen (r :: rs) = max r.length (maxRowLen rs) := rfl
    have hcol : colMax (r :: rs) i = max (cellLen r i) (colMax rs i) := rfl
    rw [hmap]
    rw [specWidths] at ih
    rw [ih, hcons, hcol]
    cases hri : r[i]? with
    | some c =>
      have hlt : i < r.length := by
        by_contra hcon
        rw [List.getElem?_eq_none (by omega)] at hri
        exact Option.noConfusion hri
      have hcl : cellLen r i = c.length := by simp [cellLen, hri]
      by_cases h2 : i < maxRowLen rs
      · rw [if_pos h2, if_pos (by omega), hcl]
        simp [owMax]
      · rw [if_neg h2, if_pos (by omega), hcl,
          colMax_eq_zero (show maxRowLen rs ≤ i by omega)]
        simp [owMax]
    | none =>
      have hge : r.length ≤ i := by
        by_contra hcon
        push_neg at hcon
        rw [List.getElem?_eq_getElem hcon] at hri
        exact Option.noConfusion hri
      have hcl : cellLen r i = 0 := by simp [cellLen, hri]
      by_cases h2 : i < maxRowLen rs
      · rw [if_pos h2, if_pos (by omega), hcl]
        simp [owMax]
      · rw [if_neg h2, if_neg (by omega)]
        simp [owMax]

theorem wmax_length (a b : List Nat) :
    (wmax a b).length = max a.length b.length := by
  induction a generalizing b with
  | nil => simp [wmax]
  | cons x xs ih =>
    cases b with
    | nil => simp [wmax]
    | cons y ys => simp [wmax, ih, Nat.succ_max_succ]

theorem specWidths_length (lines : List (List String)) :
    (specWidths lines).length = maxRowLen lines := by
  induction lines with
  | nil => rfl
  | cons r rs ih =>
    rw [specWidths, List.foldr_cons, wmax_length]
    rw [specWidths] at ih
    rw [ih]
    simp [maxRowLen]

theorem length_le_maxRowLen {lines : List (List String)} {row : List String}
    (h : row ∈ lines) : row.length ≤ maxRowLen lines := by
  induction lines with
  | nil => simp at h
  | cons r rs ih =>
    rcases List.mem_cons.mp h with h | h
    · subst h
      exact le_max_left _ _
    · exact le_trans (ih h) (le_max_right _ _)

theorem cellLen_le_colMax {lines : List (List String)} {row : List String}
    (h : row ∈ lines) (i : Nat) : cellLen row i ≤ colMax lines i := by
  induction lines with
  | nil => simp at h
  | cons r rs ih =>
    rcases List.mem_cons.mp h with h | h
    · subst h
      exact le_max_left _ _
    · exact le_trans (ih h) (le_max_right _ _)

theorem renderRow_eq_zip (ws : List Nat) (row : List String)
    (h : row.length ≤ ws.length) :
    renderRow ws row =
      ((row.zip ws).map (fun q => padEnd q.1 (q.2 + 2))).foldr (· ++ ·) "" := by
  induction row generalizing ws with
  | nil => simp [renderRow]
  | cons c cs ih =>
    cases ws with
    | nil => simp at h
    | cons w ws' =>
      simp only [renderRow, List.zip_cons_cons, List.map_cons, List.foldr_cons]
      rw [ih ws' (by simpa using h)]

/-- **C8.** Table rendering is a pure function of the row list (hence
rendering the same rows twice is byte-identical); the width stored for column
`i` is exactly the maximum cell length observed at position `i` across all
rows; each output line is its row's cells, each left-aligned and padded to
the column width plus two (so with at least two trailing spaces), one padded
cell per cell the row supplies (a shorter row contributes nothing for columns
it lacks); one output line per row. -/
theorem table_rendering (lines : List (List String)) :
    (∀ i, (columnWidthsOf lines)[i]? =
      if i < maxRowLen lines then some (colMax lines i) else none) ∧
    printAsTable lines = lines.map (fun row =>
      ((row.zip (columnWidthsOf lines)).map
        (fun q => padEnd q.1 (q.2 + 2))).foldr (· ++ ·) "") ∧
    (∀ row ∈ lines, (row.zip (columnWidthsOf lines)).length = row.length) ∧
    (∀ row ∈ lines, ∀ (i : Nat) (c : String) (w : Nat), row[i]? = some c →
      (columnWidthsOf lines)[i]? = some w →
      c.length ≤ w ∧
      padEnd c (w + 2) = c ++ String.mk (List.replicate (w + 2 - c.length) ' ') ∧
      2 ≤ w + 2 - c.length) ∧
    (printAsTable lines).length = lines.length := by
  have hW : ∀ i, (columnWidthsOf lines)[i]? =
      if i < maxRowLen lines then some (colMax lines i) else none := by
    intro i
    rw [columnWidthsOf_eq]
    exact specWidths_getElem? lines i
  have hLen : (columnWidthsOf lines).length = maxRowLen lines := by
    rw [columnWidthsOf_eq]
    exact specWidths_length lines
  refine ⟨hW, ?_, ?_, ?_, ?_⟩
  · unfold printAsTable
    apply List.map_congr_left
    intro row hrow
    exact renderRow_eq_zip _ row (by rw [hLen]; exact length_le_maxRowLen hrow)
  · intro row hrow
    rw [List.length_zip, hLen]
    exact Nat.min_eq_left (length_le_maxRowLen hrow)
  · intro row hrow i c w hc hw
    rw [hW i] at hw
    split at hw
    · rename_i hi
      have hcw : w = colMax lines i := by
        exact (Option.some.injEq _ _ ▸ hw).symm
      have hcl : cellLen row i = c.length := by simp [cellLen, hc]
      have hle : c.length ≤ w := by
        rw [hcw, ← hcl]
        exact cellLen_le_colMax hrow i
      exact ⟨hle, rfl, by omega⟩
    · exact Option.noConfusion hw
  · simp [printAsTable]

/-- **C8** (witness): the width of column 0 of a concrete two-row table. -/
theorem table_rendering_witness :
    (columnWidthsOf [["Register", "Value"], ["LR", "0x00000001"]])[0]? =
      if 0 < maxRowLen [["Register", "Value"], ["LR", "0x00000001"]] then
        some (colMax [["Register", "Value"], ["LR", "0x00000001"]] 0)
      else none :=
  (table_rendering [["Register", "Value"], ["LR", "0x00000001"]]).1 0

end Postmortem
